import Mathlib

/-!
Verification of the go-junit-report repository (hexon fork).

The repository contains two formatter variants:
* `src/formatter/formatter.go` — the formatter the CLI (`src/go-junit-report.go`)
  calls.  It has the `fullPackageClassname` and `stripANSIEscape` options and
  emits no benchmark test cases.  Embedded below in namespace `formatter`.
* `src/unnamed/part_000` — a second formatter source file with benchmark
  support (`mergeBenchmarks`, a benchmark `<testcase>` loop) and without the
  two options.  Embedded below in namespace `formatterBench`.

Machine integers: Go `time.Duration` is an `int64` nanosecond count and the
benchmark `Bytes`/`Allocs` fields are Go `int`s; all are modelled as `Int`,
with Go's truncating division modelled by `Int.tdiv` (both truncate toward
zero).  None of the operations performed on them here (sums and divisions of
parsed test data) can overflow 64 bits on real inputs, so no `% 2^64` wrap is
modelled.

Go strings are modelled as Lean `String`s, manipulated through their
character lists.  The only index computation in the embedded code is
`strings.LastIndex(s, "/")`, a byte index; since `'/'` is ASCII, a byte
occurrence of `/` in UTF-8 text is exactly a character occurrence, so the
character-level `lastIndexOfSlash` below splits the string at the same place
the Go byte-level code does.

The external collaborators (the `stripansi.Strip` filter, `encoding/xml`
marshalling, and the output `io.Writer`) are exactly the parts the spec
declares out of scope and specifies only at their interface; they enter the
embedding as explicit function parameters (`strip`, `marshal`, `writeString`/
`flush`), so every theorem below is quantified over their behaviour.
-/

namespace parser

/-- Result is the result of a test, per the parser package (`PASS`, `FAIL`,
`SKIP`, `ERROR`). -/
inductive Result where
  | PASS
  | FAIL
  | SKIP
  | ERROR
deriving DecidableEq, Repr

/-- Test is a single parsed test with its name, duration (`time.Duration`,
nanoseconds), deprecated integer `Time`, result and captured output lines. -/
structure Test where
  Name : String
  Duration : Int
  Time : Int
  Result : Result
  Output : List String
deriving DecidableEq, Repr

/-- Benchmark is a single parsed benchmark sample: name, per-op duration in
nanoseconds, and the optional `B/op` and `allocs/op` integer counts. -/
structure Benchmark where
  Name : String
  Duration : Int
  Bytes : Int
  Allocs : Int
deriving DecidableEq, Repr

/-- Package is one test binary's parsed results: name, duration, deprecated
integer `Time`, ordered tests, ordered benchmark samples and an optional
coverage percentage string (empty when absent). -/
structure Package where
  Name : String
  Duration : Int
  Time : Int
  Tests : List Test
  Benchmarks : List Benchmark
  CoveragePct : String
deriving DecidableEq, Repr

/-- Report is the root value produced by parsing one input stream: the
ordered packages. -/
structure Report where
  Packages : List Package
deriving DecidableEq, Repr

/-- Modelled from the spec: the parser package (its `Report.Failures` method
used by `main` at src/go-junit-report.go:44) is not among the provided source
files.  Per the spec's CLI contract, the exit decision asks whether "the
Report contains at least one FAIL or ERROR Test anywhere", so `Failures`
counts the tests, across all packages, whose result is `FAIL` or `ERROR`. -/
def Report.Failures (r : Report) : Nat :=
  (r.Packages.map fun p =>
    p.Tests.countP fun t => t.Result = Result.FAIL ∨ t.Result = Result.ERROR).sum

end parser

/-- mainExitCode embeds the exit decision of `main` (src/go-junit-report.go
lines 44-46): after a successful parse and format, exit status is 1 when
`-set-exit-code` is set and `report.Failures() > 0`, and 0 otherwise. -/
def mainExitCode (setExitCode : Bool) (report : parser.Report) : Nat :=
  if setExitCode ∧ report.Failures > 0 then 1 else 0

namespace formatter

/-- JUnitProperty represents a key/value pair used to define properties
(marshalled as a `<property>` element with `name`/`value` attributes). -/
structure JUnitProperty where
  Name : String
  Value : String
deriving DecidableEq, Repr

/-- JUnitSkipMessage contains the reason why a testcase was skipped
(marshalled as a `<skipped>` child element with a `message` attribute). -/
structure JUnitSkipMessage where
  Message : String
deriving DecidableEq, Repr

/-- JUnitError contains data related to a test error (marshalled as an
`<error>` child element; `Type_` stands for the Go field `Type`, a Lean
keyword, marshalled as the `type` attribute; `Contents` is its chardata). -/
structure JUnitError where
  Message : String
  Type_ : String
  Contents : String
deriving DecidableEq, Repr

/-- JUnitFailure contains data related to a failed test (marshalled as a
`<failure>` child element; `Type_` stands for the Go field `Type`). -/
structure JUnitFailure where
  Message : String
  Type_ : String
  Contents : String
deriving DecidableEq, Repr

/-- JUnitTestCase is a single test case.  Go's nil-able pointer fields
`SkipMessage`/`Error`/`Failure` (each an `omitempty` child element) are
`Option`s; `SystemOut` carries the tag `xml:",comment"`, so a non-empty value
is marshalled as a non-attribute XML comment node of the `<testcase>` and the
empty string produces no node. -/
structure JUnitTestCase where
  Classname : String
  Name : String
  Time : String
  SkipMessage : Option JUnitSkipMessage
  Error : Option JUnitError
  Failure : Option JUnitFailure
  SystemOut : String
deriving DecidableEq, Repr

/-- JUnitTestSuite is a single `<testsuite>` element: the `tests`,
`failures`, `errors` and `skipped` integer attributes, `time` and `name`
attributes, the `<properties>` children and the `<testcase>` children. -/
structure JUnitTestSuite where
  Tests : Nat
  Failures : Nat
  Errors : Nat
  Skipped : Nat
  Time : String
  Name : String
  Properties : List JUnitProperty
  TestCases : List JUnitTestCase
deriving DecidableEq, Repr

/-- JUnitTestSuites is the root `<testsuites>` element. -/
structure JUnitTestSuites where
  Suites : List JUnitTestSuite
deriving DecidableEq, Repr

/-- pad9 zero-pads the decimal digits of `n` on the left to width 9. -/
def pad9 (n : Nat) : String :=
  String.mk (List.replicate (9 - (toString n).length) '0') ++ toString n

/-- formatTimeNat renders `n` nanoseconds as seconds with exactly nine
fractional digits. -/
def formatTimeNat (n : Nat) : String :=
  toString (n / 1000000000) ++ "." ++ pad9 (n % 1000000000)

/-- formatTime embeds src/formatter/formatter.go:166-168,
`fmt.Sprintf("%.9f", d.Seconds())`: the duration `d` (nanoseconds) rendered
as seconds with nine fractional digits.  Since a nanosecond count has exactly
nine fractional decimal digits of seconds, this decimal rendering agrees with
Go's float64 path for every `|d| < 2^53` ns (the float is then within half an
ulp, far less than half of 1e-9, of the exact decimal value). -/
def formatTime (d : Int) : String :=
  if d < 0 then "-" ++ formatTimeNat (-d).toNat else formatTimeNat d.toNat

/-- joinLines is `strings.Join(lines, "\n")`. -/
def joinLines (lines : List String) : String :=
  String.intercalate "\n" lines

/-- formatOutput embeds src/formatter/formatter.go:170-176: the captured
lines joined with newlines, passed through the external `stripansi.Strip`
filter (the `strip` parameter) exactly when `stripANSIEscape` is set. -/
def formatOutput (strip : String → String) (lines : List String)
    (stripANSIEscape : Bool) : String :=
  let joined := joinLines lines
  if stripANSIEscape then strip joined else joined

/-- lastIndexOfSlash returns the index of the last `'/'` in the character
list, mirroring `strings.LastIndex(classname, "/")` (`none` for Go's -1). -/
def lastIndexOfSlash : List Char → Option Nat
  | [] => none
  | c :: rest =>
    match lastIndexOfSlash rest with
    | some i => some (i + 1)
    | none => if c = '/' then some 0 else none

/-- shortClassname embeds the truncation body shared by both formatter
variants (src/formatter/formatter.go:93-95): when the package name contains a
`'/'` at index `idx` (with the source's redundant `idx < len(pkg.Name)`
bound), the classname becomes `pkg.Name[idx+1:]`. -/
def shortClassname (name : String) : String :=
  match lastIndexOfSlash name.data with
  | some idx => if idx < name.data.length then String.mk (name.data.drop (idx + 1)) else name
  | none => name

/-- classnameOf embeds src/formatter/formatter.go:91-96: the classname is the
package name, truncated to the part after the last `'/'` unless
`fullPackageClassname` is set. -/
def classnameOf (fullPackageClassname : Bool) (name : String) : String :=
  if !fullPackageClassname then shortClassname name else name

/-- makeTestCase embeds the body of the test loop
(src/formatter/formatter.go:109-139): the base `JUnitTestCase` (classname,
name, time, all children nil, empty comment) with, according to the result,
the skip message, error or failure child filled in, or (for `PASS`) the
output placed in the comment field. -/
def makeTestCase (strip : String → String) (stripANSIEscape : Bool)
    (cname : String) (test : parser.Test) : JUnitTestCase :=
  let testCase : JUnitTestCase :=
    { Classname := cname, Name := test.Name, Time := formatTime test.Duration,
      SkipMessage := none, Error := none, Failure := none, SystemOut := "" }
  let out := formatOutput strip test.Output stripANSIEscape
  match test.Result with
  | parser.Result.SKIP => { testCase with SkipMessage := some ⟨out⟩ }
  | parser.Result.ERROR => { testCase with Error := some ⟨"Error", "", out⟩ }
  | parser.Result.FAIL => { testCase with Failure := some ⟨"Failed", "", out⟩ }
  | parser.Result.PASS => { testCase with SystemOut := out }

/-- resultTally embeds the counter increments of the test loop's switch
(src/formatter/formatter.go:117-139): `SKIP`/`ERROR`/`FAIL` bump the
corresponding suite counter, `PASS` bumps none. -/
def resultTally (r : parser.Result) (ts : JUnitTestSuite) : JUnitTestSuite :=
  match r with
  | parser.Result.SKIP => { ts with Skipped := ts.Skipped + 1 }
  | parser.Result.ERROR => { ts with Errors := ts.Errors + 1 }
  | parser.Result.FAIL => { ts with Failures := ts.Failures + 1 }
  | parser.Result.PASS => ts

/-- suiteStep is one iteration of the test loop: tally the result and append
the built test case. -/
def suiteStep (strip : String → String) (stripANSIEscape : Bool) (cname : String)
    (ts : JUnitTestSuite) (test : parser.Test) : JUnitTestSuite :=
  let ts := resultTally test.Result ts
  { ts with TestCases := ts.TestCases ++ [makeTestCase strip stripANSIEscape cname test] }

/-- makeProperties embeds src/formatter/formatter.go:103-106: the `go.version`
property (with the effective go version) followed by the coverage property
when `CoveragePct` is non-empty. -/
def makeProperties (goVersionEff : String) (pkg : parser.Package) : List JUnitProperty :=
  [{ Name := "go.version", Value := goVersionEff }] ++
    (if pkg.CoveragePct ≠ "" then
      [{ Name := "coverage.statements.pct", Value := pkg.CoveragePct }] else [])

/-- suiteForPackage embeds one iteration of the package loop
(src/formatter/formatter.go:80-145): the suite starts with `tests` equal to
the number of test entries, zero counters, the package time and name and its
properties, then folds the test loop over the package's tests.  `goVersion`
falls back to the runtime-reported version (the explicit `runtimeVersion`
parameter) when empty, as in lines 99-102. -/
def suiteForPackage (strip : String → String) (runtimeVersion goVersion : String)
    (fullPackageClassname stripANSIEscape : Bool) (pkg : parser.Package) : JUnitTestSuite :=
  let goVersionEff := if goVersion = "" then runtimeVersion else goVersion
  let cname := classnameOf fullPackageClassname pkg.Name
  let init : JUnitTestSuite :=
    { Tests := pkg.Tests.length, Failures := 0, Errors := 0, Skipped := 0,
      Time := formatTime pkg.Duration, Name := pkg.Name,
      Properties := makeProperties goVersionEff pkg, TestCases := [] }
  pkg.Tests.foldl (suiteStep strip stripANSIEscape cname) init

/-- convertReport embeds the whole conversion loop of `JUnitReportXML`
(src/formatter/formatter.go:77-145): one suite per package, in order. -/
def convertReport (strip : String → String) (runtimeVersion : String)
    (report : parser.Report) (goVersion : String)
    (fullPackageClassname stripANSIEscape : Bool) : JUnitTestSuites :=
  { Suites := report.Packages.map
      (suiteForPackage strip runtimeVersion goVersion fullPackageClassname stripANSIEscape) }

/-- xmlHeader is Go's `xml.Header` constant, written when `noXMLHeader` is
not set. -/
def xmlHeader : String := "<?xml version=\"1.0\" encoding=\"UTF-8\"?>\n"

/-- emitXML embeds the serialization tail shared by both formatter variants
(src/formatter/formatter.go:147-163): if marshalling failed its error is
returned and nothing is written; otherwise the optional header, the
marshalled bytes and a final newline are written through the buffered
writer, the writer is flushed, and `nil` is returned.  The writer is
abstract: `writeString`/`flush` are arbitrary state transitions on an
arbitrary state `σ`, because the source ignores every write and flush return
value. -/
def emitXML {σ ε : Type} (writeString : σ → String → σ) (flush : σ → σ) (w : σ)
    (marshalled : Except ε String) (noXMLHeader : Bool) : Except ε Unit × σ :=
  match marshalled with
  | Except.error e => (Except.error e, w)
  | Except.ok bytes =>
    let w1 := if !noXMLHeader then writeString w xmlHeader else w
    let w2 := writeString w1 bytes
    let w3 := writeString w2 "\n"
    (Except.ok (), flush w3)

/-- JUnitReportXML embeds src/formatter/formatter.go:76-164 end to end, with
the external collaborators as parameters: `marshal` for
`xml.MarshalIndent`, `writeString`/`flush`/`w` for the buffered writer and
`strip` for `stripansi.Strip`.  It returns the function's `error` result
together with the final writer state. -/
def JUnitReportXML {σ ε : Type} (marshal : JUnitTestSuites → Except ε String)
    (writeString : σ → String → σ) (flush : σ → σ)
    (strip : String → String) (runtimeVersion : String)
    (report : parser.Report) (noXMLHeader : Bool) (goVersion : String)
    (fullPackageClassname stripANSIEscape : Bool) (w : σ) : Except ε Unit × σ :=
  let suites := convertReport strip runtimeVersion report goVersion
    fullPackageClassname stripANSIEscape
  emitXML writeString flush w (marshal suites) noXMLHeader

end formatter

namespace formatterBench

/-!
Embedding of the second formatter source file, src/unnamed/part_000: the
variant with benchmark support.  Its XML structures are byte-identical to
the ones in src/formatter/formatter.go, so the `formatter` namespace's
structures are reused; the functions that differ are embedded here.
-/

/-- pad3 zero-pads the decimal digits of `n` on the left to width 3. -/
def pad3 (n : Nat) : String :=
  String.mk (List.replicate (3 - (toString n).length) '0') ++ toString n

/-- formatTime embeds src/unnamed/part_000:201-203,
`fmt.Sprintf("%.3f", d.Seconds())`: the duration in seconds with three
fractional digits.  Rounding of the fourth decimal is modelled as round half
away from zero; Go's float64 path agrees except possibly at exact half-
microsecond ties (whose binary doubles round either way); no theorem below
depends on this function's digits. -/
def formatTime (d : Int) : String :=
  let n := d.natAbs
  let ms := (n + 500000) / 1000000
  let s := toString (ms / 1000) ++ "." ++ pad3 (ms % 1000)
  if d < 0 then "-" ++ s else s

/-- formatBenchmarkTime embeds src/unnamed/part_000:205-207,
`fmt.Sprintf("%.9f", d.Seconds())`: identical rendering to the main
formatter's `formatTime`. -/
def formatBenchmarkTime (d : Int) : String :=
  formatter.formatTime d

/-- formatOutput embeds src/unnamed/part_000:209-212: the lines joined with
newlines and always passed through the external `stripansi.Strip` filter
(the `strip` parameter). -/
def formatOutput (strip : String → String) (lines : List String) : String :=
  strip (formatter.joinLines lines)

/-- lookupGroup models reading the Go map `benchmap[name]` from its
association-list model: the recorded group for `name`, or the map zero value
`[]` when absent. -/
def lookupGroup (benchmap : List (String × List parser.Benchmark)) (name : String) :
    List parser.Benchmark :=
  match benchmap.find? (fun e => e.1 = name) with
  | some e => e.2
  | none => []

/-- insertGroup models `benchmap[bm.Name] = append(benchmap[bm.Name], bm)`:
the sample is appended to its name's group, a new entry being created at
first occurrence. -/
def insertGroup (benchmap : List (String × List parser.Benchmark))
    (bm : parser.Benchmark) : List (String × List parser.Benchmark) :=
  match benchmap with
  | [] => [(bm.Name, [bm])]
  | e :: rest =>
    if e.1 = bm.Name then (e.1, e.2 ++ [bm]) :: rest
    else e :: insertGroup rest bm

/-- benchPass is one iteration of the first loop of `mergeBenchmarks`
(src/unnamed/part_000:179-184): on the first occurrence of a name a fresh
zero record carrying only the name is appended to `merged`, and the sample
is always appended to the map's group for its name. -/
def benchPass (acc : List parser.Benchmark × List (String × List parser.Benchmark))
    (bm : parser.Benchmark) :
    List parser.Benchmark × List (String × List parser.Benchmark) :=
  let merged := acc.1
  let benchmap := acc.2
  let merged :=
    if (benchmap.find? (fun e => e.1 = bm.Name)).isNone then
      merged ++ [{ Name := bm.Name, Duration := 0, Bytes := 0, Allocs := 0 }]
    else merged
  (merged, insertGroup benchmap bm)

/-- mergeTotals is one iteration of the second loop of `mergeBenchmarks`
(src/unnamed/part_000:186-196): the group's `Allocs`, `Bytes` and `Duration`
are summed into the fresh record and then each divided (truncating toward
zero, as Go integer and `time.Duration` division do) by the group size. -/
def mergeTotals (group : List parser.Benchmark) (bm : parser.Benchmark) :
    parser.Benchmark :=
  let summed := group.foldl
    (fun acc b =>
      { acc with Allocs := acc.Allocs + b.Allocs, Bytes := acc.Bytes + b.Bytes,
                 Duration := acc.Duration + b.Duration }) bm
  let n : Int := group.length
  { summed with Allocs := summed.Allocs.tdiv n, Bytes := summed.Bytes.tdiv n,
                Duration := summed.Duration.tdiv n }

/-- mergeBenchmarks embeds src/unnamed/part_000:176-199: same-name benchmark
samples are grouped (first-occurrence order) and averaged into one record
per distinct name. -/
def mergeBenchmarks (benchmarks : List parser.Benchmark) : List parser.Benchmark :=
  let pass := benchmarks.foldl benchPass ([], [])
  pass.1.map fun bm => mergeTotals (lookupGroup pass.2 bm.Name) bm

/-- makeTestCase embeds the test loop body of src/unnamed/part_000:108-141;
identical to the main formatter's except that output is always filtered and
the test time uses the three-digit rendering. -/
def makeTestCase (strip : String → String) (cname : String) (test : parser.Test) :
    formatter.JUnitTestCase :=
  let testCase : formatter.JUnitTestCase :=
    { Classname := cname, Name := test.Name, Time := formatTime test.Duration,
      SkipMessage := none, Error := none, Failure := none, SystemOut := "" }
  let out := formatOutput strip test.Output
  match test.Result with
  | parser.Result.SKIP => { testCase with SkipMessage := some ⟨out⟩ }
  | parser.Result.ERROR => { testCase with Error := some ⟨"Error", "", out⟩ }
  | parser.Result.FAIL => { testCase with Failure := some ⟨"Failed", "", out⟩ }
  | parser.Result.PASS => { testCase with SystemOut := out }

/-- suiteStep is one iteration of this variant's test loop: tally the result
and append the built test case. -/
def suiteStep (strip : String → String) (cname : String)
    (ts : formatter.JUnitTestSuite) (test : parser.Test) : formatter.JUnitTestSuite :=
  let ts := formatter.resultTally test.Result ts
  { ts with TestCases := ts.TestCases ++ [makeTestCase strip cname test] }

/-- makeBenchCase embeds the benchmark loop body of
src/unnamed/part_000:144-152: a test case carrying only the classname, the
benchmark's name and its nine-digit time; every other field is left at its
zero value (no children, empty comment). -/
def makeBenchCase (cname : String) (benchmark : parser.Benchmark) :
    formatter.JUnitTestCase :=
  { Classname := cname, Name := benchmark.Name,
    Time := formatBenchmarkTime benchmark.Duration,
    SkipMessage := none, Error := none, Failure := none, SystemOut := "" }

/-- suiteForPackage embeds one iteration of this variant's package loop
(src/unnamed/part_000:80-155): the package's benchmarks are first replaced
by their merge, the suite's `tests` attribute is the number of tests plus
the number of (merged) benchmarks, the classname is always the last path
segment, and the test cases are the tests followed by the merged
benchmarks. -/
def suiteForPackage (strip : String → String) (runtimeVersion goVersion : String)
    (pkg : parser.Package) : formatter.JUnitTestSuite :=
  let benchmarks := mergeBenchmarks pkg.Benchmarks
  let goVersionEff := if goVersion = "" then runtimeVersion else goVersion
  let cname := formatter.shortClassname pkg.Name
  let init : formatter.JUnitTestSuite :=
    { Tests := pkg.Tests.length + benchmarks.length, Failures := 0, Errors := 0,
      Skipped := 0, Time := formatTime pkg.Duration, Name := pkg.Name,
      Properties := formatter.makeProperties goVersionEff pkg, TestCases := [] }
  let ts := pkg.Tests.foldl (suiteStep strip cname) init
  { ts with TestCases := ts.TestCases ++ benchmarks.map (makeBenchCase cname) }

/-- convertReport embeds the conversion loop of this variant's
`JUnitReportXML` (src/unnamed/part_000:77-155): one suite per package, in
order.  The `pkg.Benchmarks = mergeBenchmarks(...)` assignment on line 81
writes to the loop's value copy of the package, so the caller's report is
unchanged — the embedding accordingly takes and returns no report state. -/
def convertReport (strip : String → String) (runtimeVersion : String)
    (report : parser.Report) (goVersion : String) : formatter.JUnitTestSuites :=
  { Suites := report.Packages.map (suiteForPackage strip runtimeVersion goVersion) }

/-- JUnitReportXML embeds src/unnamed/part_000:76-174 end to end, with the
same abstract collaborators as the main formatter's embedding. -/
def JUnitReportXML {σ ε : Type} (marshal : formatter.JUnitTestSuites → Except ε String)
    (writeString : σ → String → σ) (flush : σ → σ)
    (strip : String → String) (runtimeVersion : String)
    (report : parser.Report) (noXMLHeader : Bool) (goVersion : String)
    (w : σ) : Except ε Unit × σ :=
  let suites := convertReport strip runtimeVersion report goVersion
  formatter.emitXML writeString flush w (marshal suites) noXMLHeader

end formatterBench

namespace formatter

/-- The test loop of the main formatter, folded over `tests`, adds one
tally per `FAIL`/`ERROR`/`SKIP` result to the corresponding counter and
appends one test case per test, in order. -/
theorem suiteFold_spec (strip : String → String) (stripANSIEscape : Bool)
    (cname : String) (tests : List parser.Test) (init : JUnitTestSuite) :
    tests.foldl (suiteStep strip stripANSIEscape cname) init =
      { init with
        Failures := init.Failures + tests.countP (fun t => t.Result = parser.Result.FAIL),
        Errors := init.Errors + tests.countP (fun t => t.Result = parser.Result.ERROR),
        Skipped := init.Skipped + tests.countP (fun t => t.Result = parser.Result.SKIP),
        TestCases := init.TestCases ++ tests.map (makeTestCase strip stripANSIEscape cname) } := by
  induction tests generalizing init with
  | nil => simp
  | cons t rest ih =>
    rw [List.foldl_cons, ih]
    cases h : t.Result <;>
      simp [suiteStep, resultTally, h, List.countP_cons] <;> omega

end formatter

namespace formatterBench

/-- The test loop of the benchmark-variant formatter, folded over `tests`,
adds one tally per `FAIL`/`ERROR`/`SKIP` result to the corresponding counter
and appends one test case per test, in order. -/
theorem suiteFoldBench_spec (strip : String → String)
    (cname : String) (tests : List parser.Test) (init : formatter.JUnitTestSuite) :
    tests.foldl (suiteStep strip cname) init =
      { init with
        Failures := init.Failures + tests.countP (fun t => t.Result = parser.Result.FAIL),
        Errors := init.Errors + tests.countP (fun t => t.Result = parser.Result.ERROR),
        Skipped := init.Skipped + tests.countP (fun t => t.Result = parser.Result.SKIP),
        TestCases := init.TestCases ++ tests.map (makeTestCase strip cname) } := by
  induction tests generalizing init with
  | nil => simp
  | cons t rest ih =>
    rw [List.foldl_cons, ih]
    cases h : t.Result <;>
      simp [suiteStep, formatter.resultTally, h, List.countP_cons] <;> omega

end formatterBench

/-- The suite the main formatter builds for a package, in closed form: the
test count, the result tallies, the time, name and properties, and one test
case per test in order. -/
theorem formatter.suiteForPackage_spec (strip : String → String)
    (runtimeVersion goVersion : String) (fullPackageClassname stripANSIEscape : Bool)
    (pkg : parser.Package) :
    formatter.suiteForPackage strip runtimeVersion goVersion fullPackageClassname
        stripANSIEscape pkg =
      { Tests := pkg.Tests.length,
        Failures := pkg.Tests.countP (fun t => t.Result = parser.Result.FAIL),
        Errors := pkg.Tests.countP (fun t => t.Result = parser.Result.ERROR),
        Skipped := pkg.Tests.countP (fun t => t.Result = parser.Result.SKIP),
        Time := formatter.formatTime pkg.Duration,
        Name := pkg.Name,
        Properties := formatter.makeProperties
          (if goVersion = "" then runtimeVersion else goVersion) pkg,
        TestCases := pkg.Tests.map (formatter.makeTestCase strip stripANSIEscape
          (formatter.classnameOf fullPackageClassname pkg.Name)) } := by
  unfold formatter.suiteForPackage
  rw [formatter.suiteFold_spec]
  simp

/-- The suite the benchmark-variant formatter builds for a package, in
closed form: the test count includes the merged benchmarks, and the test
cases are the tests in order followed by the merged benchmarks in order. -/
theorem formatterBench.suiteForPackageBench_spec (strip : String → String)
    (runtimeVersion goVersion : String) (pkg : parser.Package) :
    formatterBench.suiteForPackage strip runtimeVersion goVersion pkg =
      { Tests := pkg.Tests.length + (formatterBench.mergeBenchmarks pkg.Benchmarks).length,
        Failures := pkg.Tests.countP (fun t => t.Result = parser.Result.FAIL),
        Errors := pkg.Tests.countP (fun t => t.Result = parser.Result.ERROR),
        Skipped := pkg.Tests.countP (fun t => t.Result = parser.Result.SKIP),
        Time := formatterBench.formatTime pkg.Duration,
        Name := pkg.Name,
        Properties := formatter.makeProperties
          (if goVersion = "" then runtimeVersion else goVersion) pkg,
        TestCases :=
          pkg.Tests.map (formatterBench.makeTestCase strip
            (formatter.shortClassname pkg.Name)) ++
          (formatterBench.mergeBenchmarks pkg.Benchmarks).map
            (formatterBench.makeBenchCase (formatter.shortClassname pkg.Name)) } := by
  simp only [formatterBench.suiteForPackage]
  rw [formatterBench.suiteFoldBench_spec]
  simp

/-- C1, as stated, is false for the benchmark-variant formatter: for a
report with one package that has no Test entries and one Benchmark record,
the emitted `<testsuite>` has `tests` attribute 1 (tests plus merged
benchmarks), not 0 (the number of Test entries). -/
theorem C1_counterexample :
    ((formatterBench.convertReport id "go1.21"
        { Packages := [{ Name := "pkg", Duration := 0, Time := 0, Tests := [],
                         Benchmarks := [⟨"BenchmarkFoo", 100, 0, 0⟩],
                         CoveragePct := "" }] } "go1.21").Suites.map
      (fun s => s.Tests)) = [1] ∧
    ([] : List parser.Test).length = 0 := by
  constructor
  · rfl
  · rfl

/-- C1 (amended): each emitted `<testsuite>` corresponds to one Package in
order; its `failures`, `errors` and `skipped` attributes count the package's
Tests whose result is `FAIL`, `ERROR` and `SKIP` respectively, in both
formatter variants; its `tests` attribute equals the number of Test entries
in the main formatter, and the number of Test entries plus the number of
merged Benchmark records in the benchmark-variant formatter. -/
theorem C1_suite_counts (strip : String → String)
    (runtimeVersion goVersion : String) (fullPackageClassname stripANSIEscape : Bool)
    (report : parser.Report) (pkg : parser.Package) :
    (formatter.convertReport strip runtimeVersion report goVersion
        fullPackageClassname stripANSIEscape).Suites =
      report.Packages.map (formatter.suiteForPackage strip runtimeVersion goVersion
        fullPackageClassname stripANSIEscape) ∧
    (formatterBench.convertReport strip runtimeVersion report goVersion).Suites =
      report.Packages.map (formatterBench.suiteForPackage strip runtimeVersion goVersion) ∧
    (formatter.suiteForPackage strip runtimeVersion goVersion fullPackageClassname
        stripANSIEscape pkg).Tests = pkg.Tests.length ∧
    (formatter.suiteForPackage strip runtimeVersion goVersion fullPackageClassname
        stripANSIEscape pkg).Failures =
      pkg.Tests.countP (fun t => t.Result = parser.Result.FAIL) ∧
    (formatter.suiteForPackage strip runtimeVersion goVersion fullPackageClassname
        stripANSIEscape pkg).Errors =
      pkg.Tests.countP (fun t => t.Result = parser.Result.ERROR) ∧
    (formatter.suiteForPackage strip runtimeVersion goVersion fullPackageClassname
        stripANSIEscape pkg).Skipped =
      pkg.Tests.countP (fun t => t.Result = parser.Result.SKIP) ∧
    (formatterBench.suiteForPackage strip runtimeVersion goVersion pkg).Tests =
      pkg.Tests.length + (formatterBench.mergeBenchmarks pkg.Benchmarks).length ∧
    (formatterBench.suiteForPackage strip runtimeVersion goVersion pkg).Failures =
      pkg.Tests.countP (fun t => t.Result = parser.Result.FAIL) ∧
    (formatterBench.suiteForPackage strip runtimeVersion goVersion pkg).Errors =
      pkg.Tests.countP (fun t => t.Result = parser.Result.ERROR) ∧
    (formatterBench.suiteForPackage strip runtimeVersion goVersion pkg).Skipped =
      pkg.Tests.countP (fun t => t.Result = parser.Result.SKIP) := by
  refine ⟨rfl, rfl, ?_, ?_, ?_, ?_, ?_, ?_, ?_, ?_⟩ <;>
    simp only [formatter.suiteForPackage_spec, formatterBench.suiteForPackageBench_spec]

/-- C2: in both formatter variants, a `PASS` test's formatted output goes to
the `SystemOut` field (marshalled as a non-attribute XML comment node of the
`<testcase>`) and the skipped, error and failure children are all absent; a
`FAIL` test's output goes inside the `<failure>` child, an `ERROR` test's
inside the `<error>` child and a `SKIP` test's inside the `<skipped>` child,
with no comment node; and the test cases a suite emits for its tests are
exactly these, one per Test. -/
theorem C2_testcase_children (strip : String → String) (stripANSIEscape : Bool)
    (runtimeVersion goVersion cname name : String) (fullPackageClassname : Bool)
    (dur timeInt : Int) (out : List String) (pkg : parser.Package) :
    (formatter.suiteForPackage strip runtimeVersion goVersion fullPackageClassname
        stripANSIEscape pkg).TestCases =
      pkg.Tests.map (formatter.makeTestCase strip stripANSIEscape
        (formatter.classnameOf fullPackageClassname pkg.Name)) ∧
    formatter.makeTestCase strip stripANSIEscape cname
        { Name := name, Duration := dur, Time := timeInt,
          Result := parser.Result.PASS, Output := out } =
      { Classname := cname, Name := name, Time := formatter.formatTime dur,
        SkipMessage := none, Error := none, Failure := none,
        SystemOut := formatter.formatOutput strip out stripANSIEscape } ∧
    formatter.makeTestCase strip stripANSIEscape cname
        { Name := name, Duration := dur, Time := timeInt,
          Result := parser.Result.FAIL, Output := out } =
      { Classname := cname, Name := name, Time := formatter.formatTime dur,
        SkipMessage := none, Error := none,
        Failure := some ⟨"Failed", "", formatter.formatOutput strip out stripANSIEscape⟩,
        SystemOut := "" } ∧
    formatter.makeTestCase strip stripANSIEscape cname
        { Name := name, Duration := dur, Time := timeInt,
          Result := parser.Result.ERROR, Output := out } =
      { Classname := cname, Name := name, Time := formatter.formatTime dur,
        SkipMessage := none,
        Error := some ⟨"Error", "", formatter.formatOutput strip out stripANSIEscape⟩,
        Failure := none, SystemOut := "" } ∧
    formatter.makeTestCase strip stripANSIEscape cname
        { Name := name, Duration := dur, Time := timeInt,
          Result := parser.Result.SKIP, Output := out } =
      { Classname := cname, Name := name, Time := formatter.formatTime dur,
        SkipMessage := some ⟨formatter.formatOutput strip out stripANSIEscape⟩,
        Error := none, Failure := none, SystemOut := "" } ∧
    formatterBench.makeTestCase strip cname
        { Name := name, Duration := dur, Time := timeInt,
          Result := parser.Result.PASS, Output := out } =
      { Classname := cname, Name := name, Time := formatterBench.formatTime dur,
        SkipMessage := none, Error := none, Failure := none,
        SystemOut := formatterBench.formatOutput strip out } ∧
    formatterBench.makeTestCase strip cname
        { Name := name, Duration := dur, Time := timeInt,
          Result := parser.Result.FAIL, Output := out } =
      { Classname := cname, Name := name, Time := formatterBench.formatTime dur,
        SkipMessage := none, Error := none,
        Failure := some ⟨"Failed", "", formatterBench.formatOutput strip out⟩,
        SystemOut := "" } ∧
    formatterBench.makeTestCase strip cname
        { Name := name, Duration := dur, Time := timeInt,
          Result := parser.Result.ERROR, Output := out } =
      { Classname := cname, Name := name, Time := formatterBench.formatTime dur,
        SkipMessage := none,
        Error := some ⟨"Error", "", formatterBench.formatOutput strip out⟩,
        Failure := none, SystemOut := "" } ∧
    formatterBench.makeTestCase strip cname
        { Name := name, Duration := dur, Time := timeInt,
          Result := parser.Result.SKIP, Output := out } =
      { Classname := cname, Name := name, Time := formatterBench.formatTime dur,
        SkipMessage := some ⟨formatterBench.formatOutput strip out⟩,
        Error := none, Failure := none, SystemOut := "" } := by
  refine ⟨?_, rfl, rfl, rfl, rfl, rfl, rfl, rfl, rfl⟩
  rw [formatter.suiteForPackage_spec]

/-- Failures is positive exactly when some test of some package has result
`FAIL` or `ERROR`. -/
theorem failures_pos_iff (r : parser.Report) :
    0 < r.Failures ↔ ∃ pkg ∈ r.Packages, ∃ t ∈ pkg.Tests,
      t.Result = parser.Result.FAIL ∨ t.Result = parser.Result.ERROR := by
  rw [Nat.pos_iff_ne_zero, Ne, parser.Report.Failures]
  simp [List.sum_eq_zero_iff, List.countP_eq_zero]
  constructor
  · rintro ⟨pkg, hp, t, ht, himp⟩
    by_cases hf : t.Result = parser.Result.FAIL
    · exact ⟨pkg, hp, t, ht, Or.inl hf⟩
    · exact ⟨pkg, hp, t, ht, Or.inr (himp hf)⟩
  · rintro ⟨pkg, hp, t, ht, hre⟩
    refine ⟨pkg, hp, t, ht, fun hf => ?_⟩
    cases hre with
    | inl h => exact absurd h hf
    | inr h => exact h

/-- C4: a successful CLI run exits non-zero exactly when `-set-exit-code` is
set and the parsed Report contains a `FAIL` or `ERROR` test anywhere; the
only possible exit statuses of the final decision are 0 and 1. -/
theorem C4_exit_code (setExitCode : Bool) (report : parser.Report) :
    (mainExitCode setExitCode report ≠ 0 ↔
      (setExitCode = true ∧ ∃ pkg ∈ report.Packages, ∃ t ∈ pkg.Tests,
        t.Result = parser.Result.FAIL ∨ t.Result = parser.Result.ERROR)) ∧
    (mainExitCode setExitCode report = 0 ∨ mainExitCode setExitCode report = 1) := by
  constructor
  · rw [← failures_pos_iff]
    unfold mainExitCode
    by_cases h : setExitCode ∧ report.Failures > 0
    · simp [h]
    · simp [h]
  · unfold mainExitCode
    by_cases h : setExitCode ∧ report.Failures > 0 <;> simp [h]

/-- C6: the output text placed into the emitted XML is the captured lines
joined with newline characters, passed through the external ANSI filter
exactly when the strip option is set and unchanged byte for byte when it is
not; the `PASS` placement uses exactly this text. -/
theorem C6_format_output (strip : String → String) (lines : List String)
    (cname name : String) (dur timeInt : Int) (stripANSIEscape : Bool) :
    formatter.formatOutput strip lines true = strip (String.intercalate "\n" lines) ∧
    formatter.formatOutput strip lines false = String.intercalate "\n" lines ∧
    formatter.joinLines lines = String.intercalate "\n" lines ∧
    (formatter.makeTestCase strip stripANSIEscape cname
        { Name := name, Duration := dur, Time := timeInt,
          Result := parser.Result.PASS, Output := lines }).SystemOut =
      formatter.formatOutput strip lines stripANSIEscape := by
  exact ⟨rfl, rfl, rfl, rfl⟩

/-- C9: the formatter's returned error is exactly the marshalling error —
it is `Except.error e` precisely when `xml.MarshalIndent` (the abstract
`marshal`) fails with `e` on the assembled suites, is `Except.ok ()` in
every other case, and is independent of the output writer's behaviour, so a
failing writer never produces a returned error. -/
theorem C9_error_iff_marshal {σ σ2 ε : Type}
    (marshal : formatter.JUnitTestSuites → Except ε String)
    (writeString : σ → String → σ) (flush : σ → σ) (w : σ)
    (writeString2 : σ2 → String → σ2) (flush2 : σ2 → σ2) (w2 : σ2)
    (strip : String → String) (runtimeVersion : String) (report : parser.Report)
    (noXMLHeader : Bool) (goVersion : String)
    (fullPackageClassname stripANSIEscape : Bool) :
    (∀ e : ε, (formatter.JUnitReportXML marshal writeString flush strip runtimeVersion
        report noXMLHeader goVersion fullPackageClassname stripANSIEscape w).1 =
          Except.error e ↔
      marshal (formatter.convertReport strip runtimeVersion report goVersion
        fullPackageClassname stripANSIEscape) = Except.error e) ∧
    ((formatter.JUnitReportXML marshal writeString flush strip runtimeVersion
        report noXMLHeader goVersion fullPackageClassname stripANSIEscape w).1 =
          Except.ok () ∨
      ∃ e : ε, (formatter.JUnitReportXML marshal writeString flush strip runtimeVersion
        report noXMLHeader goVersion fullPackageClassname stripANSIEscape w).1 =
          Except.error e) ∧
    (formatter.JUnitReportXML marshal writeString flush strip runtimeVersion
        report noXMLHeader goVersion fullPackageClassname stripANSIEscape w).1 =
      (formatter.JUnitReportXML marshal writeString2 flush2 strip runtimeVersion
        report noXMLHeader goVersion fullPackageClassname stripANSIEscape w2).1 := by
  unfold formatter.JUnitReportXML formatter.emitXML
  cases h : marshal (formatter.convertReport strip runtimeVersion report goVersion
      fullPackageClassname stripANSIEscape) <;> simp [h]

/-- Finding no slash index means there is no slash. -/
theorem not_mem_of_lastIndexOfSlash_eq_none (l : List Char)
    (h : formatter.lastIndexOfSlash l = none) : '/' ∉ l := by
  induction l with
  | nil => simp
  | cons c rest ih =>
    rw [formatter.lastIndexOfSlash] at h
    cases h2 : formatter.lastIndexOfSlash rest with
    | some i => rw [h2] at h; simp at h
    | none =>
      rw [h2] at h
      by_cases hc : c = '/'
      · rw [if_pos hc] at h; simp at h
      · intro hm
        rcases List.mem_cons.mp hm with he | hm2
        · exact hc he.symm
        · exact ih h2 hm2

/-- A slash-free list has no slash index. -/
theorem lastIndexOfSlash_eq_none_of_not_mem (l : List Char)
    (h : '/' ∉ l) : formatter.lastIndexOfSlash l = none := by
  induction l with
  | nil => rfl
  | cons c rest ih =>
    have hc : c ≠ '/' := fun he => h (he ▸ List.mem_cons_self c rest)
    have hrest : '/' ∉ rest := fun hm => h (List.mem_cons_of_mem c hm)
    rw [formatter.lastIndexOfSlash, ih hrest]
    exact if_neg hc

/-- The last-slash search returns `none` exactly when the list has no
slash. -/
theorem lastIndexOfSlash_eq_none_iff (l : List Char) :
    formatter.lastIndexOfSlash l = none ↔ '/' ∉ l :=
  ⟨not_mem_of_lastIndexOfSlash_eq_none l, lastIndexOfSlash_eq_none_of_not_mem l⟩

/-- The last-slash index is a valid index. -/
theorem lastIndexOfSlash_lt (l : List Char) (i : Nat)
    (h : formatter.lastIndexOfSlash l = some i) : i < l.length := by
  induction l generalizing i with
  | nil => simp [formatter.lastIndexOfSlash] at h
  | cons c rest ih =>
    rw [formatter.lastIndexOfSlash] at h
    cases h2 : formatter.lastIndexOfSlash rest with
    | some j =>
      rw [h2] at h
      simp only [Option.some.injEq] at h
      subst h
      exact Nat.succ_lt_succ (ih j h2)
    | none =>
      rw [h2] at h
      by_cases hc : c = '/'
      · rw [if_pos hc] at h
        simp only [Option.some.injEq] at h
        subst h
        simp
      · rw [if_neg hc] at h
        simp at h

/-- takeWhile runs through a fully-satisfying prefix. -/
theorem takeWhile_append_of_all {α : Type} (p : α → Bool) (xs ys : List α)
    (h : ∀ x ∈ xs, p x = true) :
    (xs ++ ys).takeWhile p = xs ++ ys.takeWhile p := by
  induction xs with
  | nil => simp
  | cons a xs ih =>
    have ha : p a = true := h a (List.mem_cons_self a xs)
    simp only [List.cons_append, List.takeWhile_cons, ha, if_true]
    rw [ih (fun x hx => h x (List.mem_cons_of_mem a hx))]

/-- takeWhile stops inside a prefix that contains a failing element. -/
theorem takeWhile_append_of_exists {α : Type} (p : α → Bool) (xs ys : List α)
    (h : ∃ x ∈ xs, p x = false) :
    (xs ++ ys).takeWhile p = xs.takeWhile p := by
  induction xs with
  | nil => simp at h
  | cons a xs ih =>
    by_cases ha : p a = true
    · simp only [List.cons_append, List.takeWhile_cons, ha, if_true]
      obtain ⟨x, hx, hpx⟩ := h
      rcases List.mem_cons.mp hx with rfl | hx2
      · rw [ha] at hpx; cases hpx
      · rw [ih ⟨x, hx2, hpx⟩]
    · have ha2 : p a = false := Bool.eq_false_iff.mpr ha
      simp [List.takeWhile_cons, ha2]

/-- lastSegment is the claim's own description of the truncated classname:
the characters of the name after its last `'/'` separator, the whole name
when there is none (equivalently, the characters read from the end up to
the first `'/'`). -/
def lastSegment (s : String) : String :=
  String.mk ((s.data.reverse.takeWhile (fun c => c != '/')).reverse)

/-- The Go last-slash truncation computes exactly the claim's last
segment. -/
theorem segment_aux (l : List Char) :
    (match formatter.lastIndexOfSlash l with
      | some idx => if idx < l.length then l.drop (idx + 1) else l
      | none => l) = (l.reverse.takeWhile (fun c => c != '/')).reverse := by
  induction l with
  | nil => simp [formatter.lastIndexOfSlash]
  | cons c rest ih =>
    rw [formatter.lastIndexOfSlash]
    cases h : formatter.lastIndexOfSlash rest with
    | some i =>
      have hlt : i < rest.length := lastIndexOfSlash_lt rest i h
      have hmem : '/' ∈ rest := by
        by_contra hnm
        rw [← lastIndexOfSlash_eq_none_iff] at hnm
        rw [h] at hnm
        cases hnm
      have hex : ∃ x ∈ rest.reverse, (x != '/') = false := by
        refine ⟨'/', List.mem_reverse.mpr hmem, ?_⟩
        simp
      simp only [List.reverse_cons]
      rw [takeWhile_append_of_exists _ _ _ hex]
      rw [h] at ih
      simp only [hlt, if_true] at ih
      simp only [List.length_cons, Nat.succ_lt_succ hlt, if_true, List.drop_succ_cons]
      exact ih
    | none =>
      have hnm : '/' ∉ rest := (lastIndexOfSlash_eq_none_iff rest).mp h
      have hall : ∀ x ∈ rest.reverse, (x != '/') = true := by
        intro x hx
        have : x ∈ rest := List.mem_reverse.mp hx
        simp only [bne_iff_ne, ne_eq]
        intro hxe
        exact hnm (hxe ▸ this)
      by_cases hc : c = '/'
      · simp only [hc, if_true, List.reverse_cons]
        rw [takeWhile_append_of_all _ _ _ hall]
        simp
      · simp only [hc, if_false, List.reverse_cons]
        rw [takeWhile_append_of_all _ _ _ hall]
        simp only [List.takeWhile_cons]
        have : (c != '/') = true := by simp [hc]
        simp [this, hc]

/-- The truncated classname of the Go code equals the claim's last
segment. -/
theorem shortClassname_eq_lastSegment (s : String) :
    formatter.shortClassname s = lastSegment s := by
  have h := segment_aux s.data
  unfold formatter.shortClassname lastSegment
  cases hidx : formatter.lastIndexOfSlash s.data with
  | some idx =>
    rw [hidx] at h
    by_cases hlt : idx < s.data.length
    · simp only [hlt, if_true] at h ⊢
      rw [← h]
    · simp only [hlt, if_false] at h ⊢
      rw [← h]
  | none =>
    rw [hidx] at h
    simp only at h
    rw [← h]

/-- Every test case the main formatter builds carries the computed
classname, whatever the test's result. -/
theorem makeTestCase_classname (strip : String → String) (stripANSIEscape : Bool)
    (cname : String) (t : parser.Test) :
    (formatter.makeTestCase strip stripANSIEscape cname t).Classname = cname := by
  cases ht : t.Result <;> simp [formatter.makeTestCase, ht]

/-- The classnames of the test cases built for a test list are all the
computed classname. -/
theorem map_classname_replicate (strip : String → String) (stripANSIEscape : Bool)
    (cname : String) (ts : List parser.Test) :
    (ts.map (formatter.makeTestCase strip stripANSIEscape cname)).map
        (fun tc => tc.Classname) =
      List.replicate ts.length cname := by
  induction ts with
  | nil => rfl
  | cons t rest ih =>
    simp only [List.map_cons, List.length_cons, List.replicate_succ, ih,
      makeTestCase_classname]

/-- C5: the classname is the full package name exactly when the
full-package-classname option is set and the substring after the last `'/'`
separator otherwise (the whole name when it contains no `'/'`), and every
`<testcase>` emitted for a package carries that classname. -/
theorem C5_classname (strip : String → String) (runtimeVersion goVersion name : String)
    (stripANSIEscape fullPackageClassname : Bool) (pkg : parser.Package) :
    formatter.classnameOf true name = name ∧
    formatter.classnameOf false name = lastSegment name ∧
    ((formatter.suiteForPackage strip runtimeVersion goVersion fullPackageClassname
        stripANSIEscape pkg).TestCases.map (fun tc => tc.Classname)) =
      List.replicate pkg.Tests.length
        (formatter.classnameOf fullPackageClassname pkg.Name) := by
  refine ⟨rfl, ?_, ?_⟩
  · simpa [formatter.classnameOf] using shortClassname_eq_lastSegment name
  · rw [formatter.suiteForPackage_spec]
    exact map_classname_replicate strip stripANSIEscape _ pkg.Tests

/-- zeroBenchmark is the fresh record `&parser.Benchmark{Name: bm.Name}`
that `mergeBenchmarks` creates on a name's first occurrence: Go zero values
in every other field. -/
def zeroBenchmark (name : String) : parser.Benchmark :=
  { Name := name, Duration := 0, Bytes := 0, Allocs := 0 }

/-- dedupFirstAux keeps, left to right, each name not already seen. -/
def dedupFirstAux (seen : List String) : List String → List String
  | [] => []
  | n :: rest =>
    if n ∈ seen then dedupFirstAux seen rest
    else n :: dedupFirstAux (n :: seen) rest

/-- dedupFirst is the claim's "one per distinct name, in first-occurrence
order": the list of distinct names in the order each first occurs. -/
def dedupFirst (names : List String) : List String := dedupFirstAux [] names

/-- specMergeOne is the claim's description of one merged benchmark: its
`Duration`, `Bytes` and `Allocs` are the sums of that field over the
same-name samples, each divided (truncating) by the number of samples. -/
def sameNameGroup (l : List parser.Benchmark) (name : String) : List parser.Benchmark :=
  l.filter (fun b => b.Name = name)

def specMergeOne (l : List parser.Benchmark) (name : String) : parser.Benchmark :=
  { Name := name,
    Duration := Int.tdiv ((sameNameGroup l name).map (fun b => b.Duration)).sum
      ((sameNameGroup l name).length : Int),
    Bytes := Int.tdiv ((sameNameGroup l name).map (fun b => b.Bytes)).sum
      ((sameNameGroup l name).length : Int),
    Allocs := Int.tdiv ((sameNameGroup l name).map (fun b => b.Allocs)).sum
      ((sameNameGroup l name).length : Int) }

/-- specMerge is the claim's description of the whole merge step: one merged
benchmark per distinct name, in first-occurrence order. -/
def specMerge (l : List parser.Benchmark) : List parser.Benchmark :=
  (dedupFirst (l.map (fun b => b.Name))).map (specMergeOne l)


/-- Looking up in the empty map model yields the Go zero value. -/
theorem lookupGroup_nil (n : String) : formatterBench.lookupGroup [] n = [] := rfl

/-- Looking up in a non-empty map model reads the first matching entry. -/
theorem lookupGroup_cons (e : String × List parser.Benchmark)
    (rest : List (String × List parser.Benchmark)) (n : String) :
    formatterBench.lookupGroup (e :: rest) n =
      if e.1 = n then e.2 else formatterBench.lookupGroup rest n := by
  unfold formatterBench.lookupGroup
  by_cases h : e.1 = n
  · rw [List.find?_cons_of_pos _ (by simp [h]), if_pos h]
  · rw [List.find?_cons_of_neg _ (by simp [h]), if_neg h]

/-- Inserting a sample appends it to its own name's group and leaves every
other name's group unchanged. -/
theorem lookupGroup_insertGroup (bmap : List (String × List parser.Benchmark))
    (b : parser.Benchmark) (n : String) :
    formatterBench.lookupGroup (formatterBench.insertGroup bmap b) n =
      if n = b.Name then formatterBench.lookupGroup bmap n ++ [b]
      else formatterBench.lookupGroup bmap n := by
  induction bmap with
  | nil =>
    rw [formatterBench.insertGroup, lookupGroup_cons, lookupGroup_nil]
    by_cases hn : n = b.Name
    · rw [if_pos hn, if_pos (hn.symm)]
      rfl
    · rw [if_neg hn, if_neg (fun h => hn h.symm)]
  | cons e rest ih =>
    rw [formatterBench.insertGroup]
    by_cases he : e.1 = b.Name
    · rw [if_pos he, lookupGroup_cons, lookupGroup_cons]
      by_cases hn : e.1 = n
      · have hnb : n = b.Name := hn ▸ he
        rw [if_pos hn, if_pos hn, if_pos hnb]
      · have hnb : ¬ n = b.Name := fun h2 => hn (h2 ▸ he)
        rw [if_neg hn, if_neg hn, if_neg hnb]
    · rw [if_neg he, lookupGroup_cons, lookupGroup_cons, ih]
      by_cases hn : e.1 = n
      · have hnb : ¬ n = b.Name := fun h2 => he (h2 ▸ hn)
        rw [if_pos hn, if_pos hn, if_neg hnb]
      · rw [if_neg hn, if_neg hn]

/-- hasKey is the map-membership test `_, ok := benchmap[name]` of the Go
code, on the association-list model. -/
def hasKey (bmap : List (String × List parser.Benchmark)) (n : String) : Bool :=
  (bmap.find? (fun e => e.1 = n)).isSome

/-- The membership test on a non-empty map model. -/
theorem hasKey_cons (e : String × List parser.Benchmark)
    (rest : List (String × List parser.Benchmark)) (n : String) :
    hasKey (e :: rest) n = true ↔ (e.1 = n ∨ hasKey rest n = true) := by
  unfold hasKey
  by_cases h : e.1 = n
  · rw [List.find?_cons_of_pos _ (by simp [h])]
    simp [h]
  · rw [List.find?_cons_of_neg _ (by simp [h])]
    simp [h]

/-- Inserting a sample makes its name a key and adds no other key. -/
theorem hasKey_insertGroup (bmap : List (String × List parser.Benchmark))
    (b : parser.Benchmark) (n : String) :
    hasKey (formatterBench.insertGroup bmap b) n = true ↔
      (hasKey bmap n = true ∨ n = b.Name) := by
  induction bmap with
  | nil =>
    rw [formatterBench.insertGroup, hasKey_cons]
    simp [hasKey, eq_comm]
  | cons e rest ih =>
    rw [formatterBench.insertGroup]
    by_cases he : e.1 = b.Name
    · rw [if_pos he, hasKey_cons, hasKey_cons]
      constructor
      · rintro (h | h)
        · exact Or.inl (Or.inl h)
        · exact Or.inl (Or.inr h)
      · rintro ((h | h) | h)
        · exact Or.inl h
        · exact Or.inr h
        · exact Or.inl (h ▸ he)
    · rw [if_neg he, hasKey_cons, hasKey_cons, ih]
      tauto

/-- benchPass in closed form: the merged list grows by a fresh zero record
exactly when the name is new, and the sample always joins its group. -/
theorem benchPass_eq (acc : List parser.Benchmark × List (String × List parser.Benchmark))
    (b : parser.Benchmark) :
    formatterBench.benchPass acc b =
      (if hasKey acc.2 b.Name = true then acc.1 else acc.1 ++ [zeroBenchmark b.Name],
        formatterBench.insertGroup acc.2 b) := by
  unfold formatterBench.benchPass hasKey zeroBenchmark
  cases h : acc.2.find? (fun e => e.1 = b.Name) <;> simp [h]

/-- The first loop of `mergeBenchmarks` accumulates, after any prefix, one
zero record per first-seen name, in first-occurrence order. -/
theorem benchFold_merged (l : List parser.Benchmark) :
    ∀ (m : List parser.Benchmark) (bmap : List (String × List parser.Benchmark))
      (seen : List String), (∀ n, n ∈ seen ↔ hasKey bmap n = true) →
      (l.foldl formatterBench.benchPass (m, bmap)).1 =
        m ++ (dedupFirstAux seen (l.map (fun b => b.Name))).map zeroBenchmark := by
  induction l with
  | nil =>
    intro m bmap seen hseen
    simp [dedupFirstAux]
  | cons b rest ih =>
    intro m bmap seen hseen
    rw [List.foldl_cons, benchPass_eq, List.map_cons, dedupFirstAux]
    by_cases hb : hasKey bmap b.Name = true
    · have hbseen : b.Name ∈ seen := (hseen b.Name).mpr hb
      rw [if_pos hb, if_pos hbseen]
      refine ih m (formatterBench.insertGroup bmap b) seen (fun n => ?_)
      rw [hseen n, hasKey_insertGroup]
      constructor
      · exact Or.inl
      · rintro (h | h)
        · exact h
        · exact h ▸ hb
    · have hbseen : b.Name ∉ seen := fun hm => hb ((hseen b.Name).mp hm)
      rw [if_neg hb, if_neg hbseen]
      rw [ih (m ++ [zeroBenchmark b.Name]) (formatterBench.insertGroup bmap b)
        (b.Name :: seen) (fun n => ?_)]
      · rw [List.map_cons, List.append_assoc, List.singleton_append]
      · rw [List.mem_cons, hseen n, hasKey_insertGroup]
        tauto

/-- The first loop of `mergeBenchmarks` records, for every name, exactly the
same-name samples in input order. -/
theorem benchFold_groups (l : List parser.Benchmark) :
    ∀ (m : List parser.Benchmark) (bmap : List (String × List parser.Benchmark))
      (n : String),
      formatterBench.lookupGroup (l.foldl formatterBench.benchPass (m, bmap)).2 n =
        formatterBench.lookupGroup bmap n ++ l.filter (fun b => b.Name = n) := by
  induction l with
  | nil =>
    intro m bmap n
    simp
  | cons b rest ih =>
    intro m bmap n
    rw [List.foldl_cons, benchPass_eq, ih, lookupGroup_insertGroup, List.filter_cons]
    by_cases hn : n = b.Name
    · rw [if_pos hn, if_pos (by simp only [decide_eq_true_eq]; exact hn.symm),
        List.append_assoc, List.singleton_append]
    · rw [if_neg hn, if_neg (by simp only [decide_eq_true_eq]; exact fun h => hn h.symm)]

/-- Summing a group into an accumulator record adds the field sums. -/
theorem sumFold (g : List parser.Benchmark) :
    ∀ acc : parser.Benchmark,
      g.foldl (fun (acc b : parser.Benchmark) =>
          { acc with Allocs := acc.Allocs + b.Allocs, Bytes := acc.Bytes + b.Bytes,
                     Duration := acc.Duration + b.Duration }) acc =
        { acc with Allocs := acc.Allocs + (g.map (fun b => b.Allocs)).sum,
                   Bytes := acc.Bytes + (g.map (fun b => b.Bytes)).sum,
                   Duration := acc.Duration + (g.map (fun b => b.Duration)).sum } := by
  induction g with
  | nil =>
    intro acc
    simp
  | cons x xs ih =>
    intro acc
    rw [List.foldl_cons, ih]
    simp [add_assoc]

/-- Averaging a zero record over a name's sample group produces exactly the
claim's merged benchmark. -/
theorem mergeTotals_spec (l : List parser.Benchmark) (n : String) :
    formatterBench.mergeTotals (l.filter (fun b => b.Name = n)) (zeroBenchmark n) =
      specMergeOne l n := by
  unfold formatterBench.mergeTotals specMergeOne sameNameGroup zeroBenchmark
  rw [sumFold]
  simp

/-- dedupFirstAux yields no duplicates and nothing already seen. -/
theorem dedupFirstAux_nodup (l : List String) :
    ∀ seen : List String,
      (dedupFirstAux seen l).Nodup ∧ ∀ x ∈ dedupFirstAux seen l, x ∉ seen := by
  induction l with
  | nil =>
    intro seen
    simp [dedupFirstAux]
  | cons n rest ih =>
    intro seen
    rw [dedupFirstAux]
    by_cases hn : n ∈ seen
    · rw [if_pos hn]
      exact ih seen
    · rw [if_neg hn]
      obtain ⟨hnd, hns⟩ := ih (n :: seen)
      refine ⟨List.nodup_cons.mpr ⟨fun hmem => ?_, hnd⟩, ?_⟩
      · exact (hns n hmem) (List.mem_cons_self n seen)
      · intro x hx
        rcases List.mem_cons.mp hx with rfl | hx2
        · exact hn
        · exact fun hxs => (hns x hx2) (List.mem_cons_of_mem n hxs)

/-- Membership in dedupFirstAux: exactly the unseen names of the list. -/
theorem dedupFirstAux_mem (l : List String) :
    ∀ (seen : List String) (x : String),
      x ∈ dedupFirstAux seen l ↔ (x ∈ l ∧ x ∉ seen) := by
  induction l with
  | nil =>
    intro seen x
    simp [dedupFirstAux]
  | cons n rest ih =>
    intro seen x
    rw [dedupFirstAux]
    by_cases hn : n ∈ seen
    · rw [if_pos hn, ih]
      constructor
      · rintro ⟨hx, hxs⟩
        exact ⟨List.mem_cons_of_mem n hx, hxs⟩
      · rintro ⟨hx, hxs⟩
        rcases List.mem_cons.mp hx with rfl | hx2
        · exact absurd hn hxs
        · exact ⟨hx2, hxs⟩
    · rw [if_neg hn]
      simp only [List.mem_cons, ih]
      constructor
      · rintro (rfl | ⟨hr, hxs⟩)
        · exact ⟨Or.inl rfl, hn⟩
        · exact ⟨Or.inr hr, fun hs => hxs (Or.inr hs)⟩
      · rintro ⟨rfl | hr, hxs⟩
        · exact Or.inl rfl
        · by_cases hxn : x = n
          · exact Or.inl hxn
          · exact Or.inr ⟨hr, fun hs => hs.elim hxn hxs⟩

/-- The names of the claim-side merge are the distinct input names in
first-occurrence order. -/
theorem specMerge_names (l : List parser.Benchmark) :
    (specMerge l).map (fun b => b.Name) = dedupFirst (l.map (fun b => b.Name)) := by
  unfold specMerge
  rw [List.map_map]
  have hcomp : ((fun (b : parser.Benchmark) => b.Name) ∘ specMergeOne l) =
      fun n => n := rfl
  rw [hcomp]
  exact List.map_id' _

/-- The Go merge computes exactly the claim-side merge. -/
theorem mergeBenchmarks_eq_specMerge (l : List parser.Benchmark) :
    formatterBench.mergeBenchmarks l = specMerge l := by
  have hseen0 : ∀ n : String, n ∈ ([] : List String) ↔
      hasKey ([] : List (String × List parser.Benchmark)) n = true := by
    intro n
    simp [hasKey, List.find?_nil]
  have hmerged := benchFold_merged l [] [] [] hseen0
  have hgroups := benchFold_groups l [] []
  show (List.foldl formatterBench.benchPass ([], []) l).1.map
      (fun bm => formatterBench.mergeTotals
        (formatterBench.lookupGroup
          (List.foldl formatterBench.benchPass ([], []) l).2 bm.Name) bm) =
    specMerge l
  rw [hmerged]
  simp only [List.nil_append, List.map_map]
  unfold specMerge dedupFirst
  refine List.map_congr_left ?_
  intro n hn
  show formatterBench.mergeTotals
      (formatterBench.lookupGroup
        (List.foldl formatterBench.benchPass ([], []) l).2 n) (zeroBenchmark n) =
    specMergeOne l n
  rw [hgroups n, lookupGroup_nil, List.nil_append]
  exact mergeTotals_spec l n

/-- C7: the merge step produces exactly one merged Benchmark per distinct
name (their names are pairwise distinct and cover exactly the input names),
in first-occurrence order, and each merged record's `Duration`, `Bytes` and
`Allocs` is the field's sum over the same-name samples divided, truncating,
by the number of samples. -/
theorem C7_merge_benchmarks (l : List parser.Benchmark) :
    formatterBench.mergeBenchmarks l = specMerge l ∧
    ((formatterBench.mergeBenchmarks l).map (fun b => b.Name)).Nodup ∧
    (∀ n, n ∈ (formatterBench.mergeBenchmarks l).map (fun b => b.Name) ↔
      n ∈ l.map (fun b => b.Name)) := by
  have hmain := mergeBenchmarks_eq_specMerge l
  refine ⟨hmain, ?_, ?_⟩
  · rw [hmain, specMerge_names]
    exact (dedupFirstAux_nodup (l.map (fun b => b.Name)) []).1
  · intro n
    rw [hmain, specMerge_names]
    unfold dedupFirst
    rw [dedupFirstAux_mem]
    simp

/-- dedupFirstAux is the identity on duplicate-free lists disjoint from the
seen set. -/
theorem dedupFirstAux_of_nodup (names : List String) :
    ∀ seen : List String, names.Nodup → (∀ x ∈ names, x ∉ seen) →
      dedupFirstAux seen names = names := by
  induction names with
  | nil =>
    intro seen _ _
    rfl
  | cons n rest ih =>
    intro seen hnd hdis
    rw [dedupFirstAux, if_neg (hdis n (List.mem_cons_self n rest))]
    congr 1
    refine ih (n :: seen) (List.nodup_cons.mp hnd).2 (fun x hx hmem => ?_)
    rcases List.mem_cons.mp hmem with rfl | hs
    · exact (List.nodup_cons.mp hnd).1 hx
    · exact hdis x (List.mem_cons_of_mem n hx) hs

/-- Filtering by a name that no element carries yields nothing. -/
theorem filter_name_eq_nil (xs : List parser.Benchmark) (n : String)
    (h : ∀ x ∈ xs, x.Name ≠ n) :
    xs.filter (fun b => b.Name = n) = [] := by
  rw [List.filter_eq_nil_iff]
  intro a ha
  simp only [decide_eq_true_eq]
  exact h a ha

/-- Re-merging a list whose names are pairwise distinct is the identity:
every group is a singleton and dividing by one changes nothing. -/
theorem map_specMergeOne_of_nodup :
    ∀ (l pre : List parser.Benchmark),
      ((pre ++ l).map (fun b => b.Name)).Nodup →
      (l.map (fun b => b.Name)).map (specMergeOne (pre ++ l)) = l := by
  intro l
  induction l with
  | nil =>
    intro pre _
    rfl
  | cons b rest ih =>
    intro pre hnd
    have hmap : (pre ++ b :: rest).map (fun b => b.Name) =
        pre.map (fun b => b.Name) ++ b.Name :: rest.map (fun b => b.Name) := by
      simp
    rw [hmap] at hnd
    have hpre : ∀ x ∈ pre, x.Name ≠ b.Name := by
      intro x hx he
      rcases List.nodup_append.mp hnd with ⟨_, _, hdisj⟩
      exact hdisj (List.mem_map_of_mem _ hx) (he ▸ List.mem_cons_self _ _)
    have hrest : ∀ x ∈ rest, x.Name ≠ b.Name := by
      intro x hx he
      rcases List.nodup_append.mp hnd with ⟨_, hnd2, _⟩
      exact (List.nodup_cons.mp hnd2).1 (he ▸ List.mem_map_of_mem _ hx)
    have hgroup : sameNameGroup (pre ++ b :: rest) b.Name = [b] := by
      unfold sameNameGroup
      rw [List.filter_append, filter_name_eq_nil pre b.Name hpre, List.nil_append,
        List.filter_cons, if_pos (by simp), filter_name_eq_nil rest b.Name hrest]
    have hhead : specMergeOne (pre ++ b :: rest) b.Name = b := by
      unfold specMergeOne
      rw [hgroup]
      rcases b with ⟨bn, bd, bb, ba⟩
      simp [Int.tdiv_one]
    have htail : (rest.map (fun b => b.Name)).map (specMergeOne (pre ++ b :: rest)) =
        rest := by
      have := ih (pre ++ [b]) (by simpa using hnd)
      simpa using this
    rw [List.map_cons, List.map_cons, hhead, htail]

/-- The claim-side merge is the identity on lists with pairwise-distinct
names. -/
theorem specMerge_of_nodup (l : List parser.Benchmark)
    (h : (l.map (fun b => b.Name)).Nodup) : specMerge l = l := by
  unfold specMerge dedupFirst
  rw [dedupFirstAux_of_nodup _ [] h (by simp)]
  simpa using map_specMergeOne_of_nodup l [] (by simpa using h)

/-- Merging twice is merging once: the merged list has pairwise-distinct
names, so a second merge leaves it unchanged. -/
theorem mergeBenchmarks_idem (l : List parser.Benchmark) :
    formatterBench.mergeBenchmarks (formatterBench.mergeBenchmarks l) =
      formatterBench.mergeBenchmarks l := by
  rw [mergeBenchmarks_eq_specMerge (formatterBench.mergeBenchmarks l)]
  apply specMerge_of_nodup
  rw [mergeBenchmarks_eq_specMerge l, specMerge_names]
  exact (dedupFirstAux_nodup _ []).1

/-- C3, as stated, is false: for a package with two Benchmark records that
share the name "BenchmarkX" (durations 100ns and 300ns), the formatter emits
a single benchmark `<testcase>` whose time is the average 200ns — there is
no testcase carrying either record's own time, and there are fewer testcases
than Benchmark records. -/
theorem C3_counterexample :
    ((formatterBench.suiteForPackage id "go1.21" "go1.21"
        { Name := "pkg", Duration := 0, Time := 0, Tests := [],
          Benchmarks := [⟨"BenchmarkX", 100, 0, 0⟩, ⟨"BenchmarkX", 300, 0, 0⟩],
          CoveragePct := "" }).TestCases.map (fun tc => tc.Time)) =
      ["0.000000200"] ∧
    formatterBench.formatBenchmarkTime 100 = "0.000000100" ∧
    formatterBench.formatBenchmarkTime 300 = "0.000000300" := by
  exact ⟨rfl, rfl, rfl⟩

/-- C3 (amended): for every merged Benchmark record (same-name samples are
first averaged into one record per distinct name), the benchmark-variant
formatter emits one additional `<testcase>` after the test cases, carrying
only the classname, that benchmark's name and its time; it has no comment
output and no failure, error or skipped child. -/
theorem C3_bench_cases (strip : String → String)
    (runtimeVersion goVersion cname name : String) (dur bytes allocs : Int)
    (pkg : parser.Package) :
    (formatterBench.suiteForPackage strip runtimeVersion goVersion pkg).TestCases =
      pkg.Tests.map (formatterBench.makeTestCase strip
        (formatter.shortClassname pkg.Name)) ++
      (formatterBench.mergeBenchmarks pkg.Benchmarks).map
        (formatterBench.makeBenchCase (formatter.shortClassname pkg.Name)) ∧
    formatterBench.makeBenchCase cname
        { Name := name, Duration := dur, Bytes := bytes, Allocs := allocs } =
      { Classname := cname, Name := name,
        Time := formatterBench.formatBenchmarkTime dur,
        SkipMessage := none, Error := none, Failure := none, SystemOut := "" } := by
  refine ⟨?_, rfl⟩
  rw [formatterBench.suiteForPackageBench_spec]

/-- The main formatter's test case carries the test's name, whatever the
result. -/
theorem makeTestCase_name (strip : String → String) (stripANSIEscape : Bool)
    (cname : String) (t : parser.Test) :
    (formatter.makeTestCase strip stripANSIEscape cname t).Name = t.Name := by
  cases ht : t.Result <;> simp [formatter.makeTestCase, ht]

/-- The benchmark-variant formatter's test case carries the test's name,
whatever the result. -/
theorem makeTestCaseBench_name (strip : String → String)
    (cname : String) (t : parser.Test) :
    (formatterBench.makeTestCase strip cname t).Name = t.Name := by
  cases ht : t.Result <;> simp [formatterBench.makeTestCase, ht]

/-- The suite built by the main formatter carries the package's name. -/
theorem suiteForPackage_Name (strip : String → String)
    (runtimeVersion goVersion : String) (fullPackageClassname stripANSIEscape : Bool)
    (pkg : parser.Package) :
    (formatter.suiteForPackage strip runtimeVersion goVersion fullPackageClassname
      stripANSIEscape pkg).Name = pkg.Name := by
  rw [formatter.suiteForPackage_spec]

/-- The suite built by the benchmark-variant formatter carries the package's
name. -/
theorem suiteForPackageBench_Name (strip : String → String)
    (runtimeVersion goVersion : String) (pkg : parser.Package) :
    (formatterBench.suiteForPackage strip runtimeVersion goVersion pkg).Name =
      pkg.Name := by
  rw [formatterBench.suiteForPackageBench_spec]

/-- C10, as stated, is false for the benchmark-variant formatter: a package
with one test and two same-name Benchmark records emits only two testcases
(the test, then one merged benchmark entry) — one of the package's benchmark
entries is not emitted. -/
theorem C10_counterexample :
    ((formatterBench.suiteForPackage id "go1.21" "go1.21"
        { Name := "p", Duration := 0, Time := 0,
          Tests := [⟨"TestOne", 0, 0, parser.Result.PASS, []⟩],
          Benchmarks := [⟨"BenchmarkA", 50, 0, 0⟩, ⟨"BenchmarkA", 150, 0, 0⟩],
          CoveragePct := "" }).TestCases.map (fun tc => tc.Name)) =
      ["TestOne", "BenchmarkA"] ∧
    ([(⟨"BenchmarkA", 50, 0, 0⟩ : parser.Benchmark), ⟨"BenchmarkA", 150, 0, 0⟩]).length
      = 2 := by
  exact ⟨rfl, rfl⟩

/-- C10 (amended): the emitted `<testsuite>` elements carry the Report's
packages' names in exactly the Report's order, with none reordered,
duplicated or dropped; within a suite the `<testcase>` elements carry the
package's tests' names in exactly the package's order, followed, in the
benchmark-variant formatter, by one entry per distinct benchmark name in
first-occurrence order (same-name benchmark samples having been merged into
one entry). -/
theorem C10_order (strip : String → String) (runtimeVersion goVersion : String)
    (fullPackageClassname stripANSIEscape : Bool) (report : parser.Report)
    (pkg : parser.Package) :
    (formatter.convertReport strip runtimeVersion report goVersion
        fullPackageClassname stripANSIEscape).Suites.map (fun s => s.Name) =
      report.Packages.map (fun p => p.Name) ∧
    (formatterBench.convertReport strip runtimeVersion report goVersion).Suites.map
        (fun s => s.Name) =
      report.Packages.map (fun p => p.Name) ∧
    (formatter.suiteForPackage strip runtimeVersion goVersion fullPackageClassname
        stripANSIEscape pkg).TestCases.map (fun tc => tc.Name) =
      pkg.Tests.map (fun t => t.Name) ∧
    (formatterBench.suiteForPackage strip runtimeVersion goVersion pkg).TestCases.map
        (fun tc => tc.Name) =
      pkg.Tests.map (fun t => t.Name) ++
        (formatterBench.mergeBenchmarks pkg.Benchmarks).map (fun b => b.Name) ∧
    (formatterBench.mergeBenchmarks pkg.Benchmarks).map (fun b => b.Name) =
      dedupFirst (pkg.Benchmarks.map (fun b => b.Name)) := by
  refine ⟨?_, ?_, ?_, ?_, ?_⟩
  · show (report.Packages.map (formatter.suiteForPackage strip runtimeVersion goVersion
        fullPackageClassname stripANSIEscape)).map (fun s => s.Name) =
      report.Packages.map (fun p => p.Name)
    rw [List.map_map]
    exact List.map_congr_left (fun p _ =>
      suiteForPackage_Name strip runtimeVersion goVersion fullPackageClassname
        stripANSIEscape p)
  · show (report.Packages.map (formatterBench.suiteForPackage strip runtimeVersion
        goVersion)).map (fun s => s.Name) = report.Packages.map (fun p => p.Name)
    rw [List.map_map]
    exact List.map_congr_left (fun p _ =>
      suiteForPackageBench_Name strip runtimeVersion goVersion p)
  · rw [formatter.suiteForPackage_spec]
    show (pkg.Tests.map (formatter.makeTestCase strip stripANSIEscape
        (formatter.classnameOf fullPackageClassname pkg.Name))).map (fun tc => tc.Name) =
      pkg.Tests.map (fun t => t.Name)
    rw [List.map_map]
    exact List.map_congr_left (fun t _ => makeTestCase_name strip stripANSIEscape _ t)
  · rw [formatterBench.suiteForPackageBench_spec]
    show ((pkg.Tests.map (formatterBench.makeTestCase strip
          (formatter.shortClassname pkg.Name)) ++
        (formatterBench.mergeBenchmarks pkg.Benchmarks).map
          (formatterBench.makeBenchCase (formatter.shortClassname pkg.Name))).map
        (fun tc => tc.Name)) =
      pkg.Tests.map (fun t => t.Name) ++
        (formatterBench.mergeBenchmarks pkg.Benchmarks).map (fun b => b.Name)
    rw [List.map_append, List.map_map, List.map_map]
    congr 1
    exact List.map_congr_left (fun t _ => makeTestCaseBench_name strip _ t)
  · rw [mergeBenchmarks_eq_specMerge, specMerge_names]

/-- C8: formatting a Report twice with the same configuration and the same
collaborators produces identical results, output writes included.  The
embedded formatters are functions of the report, the options and the
abstract collaborators alone: the Go source reads no mutable global state,
and its only write into report data — `pkg.Benchmarks = mergeBenchmarks(...)`
in the benchmark variant — lands on the loop's value copy of the package, so
the caller's Report is unchanged.  The last conjunct shows the output would
be unchanged even if that assignment were visible to the caller: re-merging
already-merged benchmarks is the identity. -/
theorem C8_idempotent {σ ε : Type} (marshal : formatter.JUnitTestSuites → Except ε String)
    (writeString : σ → String → σ) (flush : σ → σ) (w : σ)
    (strip : String → String) (runtimeVersion : String) (report : parser.Report)
    (noXMLHeader : Bool) (goVersion : String)
    (fullPackageClassname stripANSIEscape : Bool) :
    formatter.JUnitReportXML marshal writeString flush strip runtimeVersion report
        noXMLHeader goVersion fullPackageClassname stripANSIEscape w =
      formatter.JUnitReportXML marshal writeString flush strip runtimeVersion report
        noXMLHeader goVersion fullPackageClassname stripANSIEscape w ∧
    formatterBench.JUnitReportXML marshal writeString flush strip runtimeVersion report
        noXMLHeader goVersion w =
      formatterBench.JUnitReportXML marshal writeString flush strip runtimeVersion report
        noXMLHeader goVersion w ∧
    (∀ bl : List parser.Benchmark,
      formatterBench.mergeBenchmarks (formatterBench.mergeBenchmarks bl) =
        formatterBench.mergeBenchmarks bl) := by
  exact ⟨rfl, rfl, mergeBenchmarks_idem⟩
